import Mathlib

/-
Verification of the streaming ingestion core of skim (src/helper/ingest.rs,
src/helper/item_reader.rs, src/header.rs) against its natural-language
specification.  Bytes are modelled as Nat, byte strings as List Nat, and the
byte-stream source feeding the ingestion loop as a script of pieces (chunks
delivered by fill_buf, and read errors).
-/

namespace Skim

/-- splitFirst t bs scans bs for the first occurrence of the byte t and, when
found, returns the bytes before it and the bytes after it (t itself removed). -/
def splitFirst (t : Nat) : List Nat → Option (List Nat × List Nat)
  | [] => none
  | b :: r =>
    if b = t then some ([], r)
    else (splitFirst t r).map (fun pq => (b :: pq.1, pq.2))

theorem splitFirst_eq_some {t : Nat} : ∀ {bs pre post : List Nat},
    splitFirst t bs = some (pre, post) → bs = pre ++ t :: post := by
  intro bs
  induction bs with
  | nil => intro pre post h; simp [splitFirst] at h
  | cons b r ih =>
    intro pre post h
    rw [splitFirst] at h
    by_cases hb : b = t
    · rw [if_pos hb] at h
      simp only [Option.some.injEq, Prod.mk.injEq] at h
      obtain ⟨h1, h2⟩ := h
      subst h1; subst h2; simp [hb]
    · rw [if_neg hb] at h
      cases hsp : splitFirst t r with
      | none => rw [hsp] at h; simp at h
      | some pq =>
        rw [hsp] at h
        simp only [Option.map_some', Option.some.injEq, Prod.mk.injEq] at h
        obtain ⟨h1, h2⟩ := h
        have hr := @ih pq.1 pq.2 (by rw [hsp])
        rw [← h1, ← h2]
        simp [hr]

theorem splitFirst_none {t : Nat} : ∀ {bs : List Nat},
    splitFirst t bs = none → t ∉ bs := by
  intro bs
  induction bs with
  | nil => intro _; simp
  | cons b r ih =>
    intro h
    rw [splitFirst] at h
    by_cases hb : b = t
    · rw [if_pos hb] at h; simp at h
    · rw [if_neg hb] at h
      have hr : splitFirst t r = none := by
        cases hsp : splitFirst t r with
        | none => rfl
        | some pq => rw [hsp] at h; simp at h
      intro hmem
      rcases List.mem_cons.mp hmem with he | hm
      · exact hb he.symm
      · exact ih hr hm

theorem splitFirst_post_length {t : Nat} {bs pre post : List Nat}
    (h : splitFirst t bs = some (pre, post)) : post.length < bs.length := by
  have := splitFirst_eq_some h
  subst this
  simp
  omega

theorem splitFirst_append_some {t : Nat} : ∀ {a : List Nat} {pre post : List Nat}
    (b : List Nat), splitFirst t a = some (pre, post) →
    splitFirst t (a ++ b) = some (pre, post ++ b) := by
  intro a
  induction a with
  | nil => intro pre post b h; simp [splitFirst] at h
  | cons x r ih =>
    intro pre post b h
    rw [splitFirst] at h
    by_cases hx : x = t
    · rw [if_pos hx] at h
      simp only [Option.some.injEq, Prod.mk.injEq] at h
      obtain ⟨h1, h2⟩ := h
      subst h1; subst h2
      simp [splitFirst, hx]
    · rw [if_neg hx] at h
      cases hsp : splitFirst t r with
      | none => rw [hsp] at h; simp at h
      | some pq =>
        rw [hsp] at h
        simp only [Option.map_some', Option.some.injEq, Prod.mk.injEq] at h
        obtain ⟨h1, h2⟩ := h
        have hr := @ih pq.1 pq.2 b (by rw [hsp])
        simp only [List.cons_append, splitFirst, if_neg hx, hr, Option.map_some']
        rw [List.append_eq, hr]
        simp [← h1, ← h2]

/-- stripCR removes a single trailing carriage-return byte (13), modelling the
way Rust str::lines treats a carriage return directly before a newline. -/
def stripCR (l : List Nat) : List Nat :=
  if l.getLast? = some 13 then l.dropLast else l

/-- rustLinesAux is the worker of rustLines; acc holds the bytes of the
current line in reverse order. -/
def rustLinesAux : List Nat → List Nat → List (List Nat)
  | acc, [] => if acc.isEmpty then [] else [acc.reverse]
  | acc, b :: r =>
    if b = 10 then stripCR acc.reverse :: rustLinesAux [] r
    else rustLinesAux (b :: acc) r

/-- rustLines models Rust str::lines at the byte level (valid for UTF-8 input,
where bytes 10 and 13 only occur as the ASCII characters themselves): the
buffer is split at each newline byte 10, a carriage return directly before a
newline is stripped, and a final segment without a trailing newline yields one
further line unless it is empty.  This is the splitting actually performed by
ingest_loop (ingest.rs line 64), regardless of the configured terminator. -/
def rustLines (bs : List Nat) : List (List Nat) := rustLinesAux [] bs

/-- specSegmentsAux is the worker of specSegments; acc holds the bytes of the
current segment in reverse order. -/
def specSegmentsAux (t : Nat) : List Nat → List Nat → List (List Nat)
  | _, [] => []
  | acc, b :: r =>
    if b = t then acc.reverse :: specSegmentsAux t [] r
    else specSegmentsAux t (b :: acc) r

/-- specSegments is the item rule as the claim words it (NOT as the code does):
one item per terminator-delimited segment of the input, and a trailing segment
not followed by the terminator produces no item. -/
def specSegments (t : Nat) (bs : List Nat) : List (List Nat) :=
  specSegmentsAux t [] bs

/-- utf8Step is one transition of the standard UTF-8 acceptance automaton.
The state is none (invalid, a sink) or some (need, lo, hi): need further
continuation bytes are expected and the next byte must lie in lo..hi (after
the first continuation byte the constraint is always 0x80..0xBF).  The lead
byte table is the RFC 3629 one: C2..DF one continuation; E0 / E1..EC,EE,EF /
ED two continuations with a restricted first byte (no overlongs, no
surrogates); F0 / F1..F3 / F4 three continuations (no overlongs, max
U+10FFFF). -/
def utf8Step : Option (Nat × Nat × Nat) → Nat → Option (Nat × Nat × Nat)
  | none, _ => none
  | some (0, _, _), b =>
    if b ≤ 0x7F then some (0, 0, 0)
    else if 0xC2 ≤ b && b ≤ 0xDF then some (1, 0x80, 0xBF)
    else if b = 0xE0 then some (2, 0xA0, 0xBF)
    else if (0xE1 ≤ b && b ≤ 0xEC) || b = 0xEE || b = 0xEF then some (2, 0x80, 0xBF)
    else if b = 0xED then some (2, 0x80, 0x9F)
    else if b = 0xF0 then some (3, 0x90, 0xBF)
    else if 0xF1 ≤ b && b ≤ 0xF3 then some (3, 0x80, 0xBF)
    else if b = 0xF4 then some (3, 0x80, 0x8F)
    else none
  | some (need + 1, lo, hi), b =>
    if lo ≤ b && b ≤ hi then some (need, 0x80, 0xBF) else none

/-- isValidUtf8 checks well-formed UTF-8 byte sequences, modelling the
success condition of std::str::from_utf8_mut at ingest.rs line 62 (on failure
the source expect() panics and the ingestion thread dies). -/
def isValidUtf8 (bs : List Nat) : Bool :=
  match bs.foldl utf8Step (some (0, 0, 0)) with
  | some (0, _, _) => true
  | _ => false

/-- allAscii asserts every byte is 7-bit ASCII (a sufficient condition for
being valid UTF-8). -/
def allAscii (bs : List Nat) : Bool := bs.all (fun b => b ≤ 0x7F)

theorem allAscii_foldl : ∀ {bs : List Nat}, allAscii bs = true →
    bs.foldl utf8Step (some (0, 0, 0)) = some (0, 0, 0) := by
  intro bs
  induction bs with
  | nil => intro _; rfl
  | cons b r ih =>
    intro h
    rw [allAscii, List.all_cons, Bool.and_eq_true] at h
    have hb : b ≤ 0x7F := of_decide_eq_true h.1
    have hr : allAscii r = true := by rw [allAscii]; exact h.2
    rw [List.foldl_cons]
    have hstep : utf8Step (some (0, 0, 0)) b = some (0, 0, 0) := by
      rw [utf8Step, if_pos hb]
    rw [hstep]
    exact ih hr

theorem allAscii_valid {bs : List Nat} (h : allAscii bs = true) : isValidUtf8 bs = true := by
  rw [isValidUtf8, allAscii_foldl h]

/-- ErrKind models std::io::ErrorKind as far as ingest_loop distinguishes it:
Interrupted, UnexpectedEof, and everything else. -/
inductive ErrKind
  | interrupted
  | eof
  | other
deriving DecidableEq

/-- Piece is one event of the byte-stream source script: either a chunk of
bytes that a fill_buf call delivers (and which the loop then fully consumes),
or an I/O error returned by the underlying read.  A real BufRead delivers an
empty chunk only at end of input, which the script models by running out of
pieces. -/
inductive Piece
  | bytes (bs : List Nat)
  | ioerr (k : ErrKind)
deriving DecidableEq

/-- readUntil models std::io::BufRead::read_until(line_ending, buf) as called
at ingest.rs line 55: it pulls bytes from the source up to and including the
first occurrence of the terminator, stopping early at end of input; an
Interrupted error is retried internally by read_until, and any other error
ends the call with the bytes read so far (ingest_loop discards the returned
Result).  It returns the appended bytes and the remaining source script. -/
def readUntil (t : Nat) : List Piece → List Nat × List Piece
  | [] => ([], [])
  | .ioerr .interrupted :: ps => readUntil t ps
  | .ioerr .eof :: ps => ([], ps)
  | .ioerr .other :: ps => ([], ps)
  | .bytes bs :: ps =>
    match splitFirst t bs with
    | some (pre, post) => (pre ++ [t], if post.isEmpty then ps else .bytes post :: ps)
    | none =>
      let r := readUntil t ps
      (bs ++ r.1, r.2)

theorem readUntil_snd_length (t : Nat) : ∀ ps : List Piece,
    ((readUntil t ps).2).length ≤ ps.length := by
  intro ps
  induction ps with
  | nil => simp [readUntil]
  | cons p ps ih =>
    match p with
    | .ioerr .interrupted =>
      calc ((readUntil t ps).2).length ≤ ps.length := ih
        _ ≤ (Piece.ioerr .interrupted :: ps).length := by simp
    | .ioerr .eof => simp [readUntil]
    | .ioerr .other => simp [readUntil]
    | .bytes bs =>
      rw [readUntil]
      cases hsp : splitFirst t bs with
      | some pq =>
        by_cases hpost : pq.2.isEmpty
        · simp [hpost]
        · simp [hpost]
      | none => simpa using Nat.le_succ_of_le ih

/-- trySend models publishing a batch of lines on the crossbeam item channel
(the try_for_each over send at ingest.rs lines 62-68).  The channel state cap
is none when the receiver stays alive for good, or some k when the receiver
accepts k further items and is then dropped.  It returns the items actually
delivered and the channel state after the batch (none when a send failed,
which makes the loop break). -/
def trySend (cap : Option Nat) (ls : List (List Nat)) :
    List (List Nat) × Option (Option Nat) :=
  match cap with
  | none => (ls, some none)
  | some k => if ls.length ≤ k then (ls, some (some (k - ls.length))) else (ls.take k, none)

/-- ingestLoop models ingest_loop of ingest.rs lines 29-72 over a source
script.  Each outer iteration: fill_buf delivers the next piece (an
Interrupted error continues the loop, any other error breaks it, end of
script is the empty fill that together with an empty read_until result breaks
the loop), the consumed chunk is extended by read_until up to and including
the next terminator byte, an empty buffer breaks the loop, the buffer must
decode as UTF-8 (otherwise the expect() at line 63 panics, modelled by the
true flag), and the buffer's str::lines are sent one by one, a failing send
breaking the loop.  Returns the lines actually published and whether the
thread panicked. -/
def ingestLoop (t : Nat) (cap : Option Nat) (ps : List Piece) :
    List (List Nat) × Bool :=
  match ps with
  | [] => ([], false)
  | .ioerr .interrupted :: rest => ingestLoop t cap rest
  | .ioerr .eof :: _ => ([], false)
  | .ioerr .other :: _ => ([], false)
  | .bytes bs :: rest =>
    let ext := (readUntil t rest).1
    let rest2 := (readUntil t rest).2
    let buffer := bs ++ ext
    if buffer.isEmpty then ([], false)
    else if isValidUtf8 buffer then
      match trySend cap (rustLines buffer) with
      | (sent, some cap2) =>
        let r := ingestLoop t cap2 rest2
        (sent ++ r.1, r.2)
      | (sent, none) => (sent, false)
    else ([], true)
termination_by ps.length
decreasing_by
  · simp
  · have := readUntil_snd_length t ps
    simp
    omega

/-- DELIMITER_STR is the default delimiter pattern of item_reader.rs line 25
(a run of tabs, newlines and spaces). -/
def DELIMITER_STR : String := "[\\t\\n ]+"

/-- SkimItemReaderOption models the configuration struct of item_reader.rs
lines 32-40.  Field ranges are parsed by FieldRange::from_str (src/field.rs,
outside src/), so the field-range type is left as a parameter α; the compiled
regex is represented by its pattern string. -/
structure SkimItemReaderOption (α : Type) where
  use_ansi_color : Bool
  transform_fields : List α
  matching_fields : List α
  delimiter : String
  line_ending : Nat
  show_error : Bool
deriving DecidableEq

/-- defaultOption models the Default impl of item_reader.rs lines 42-53:
newline line ending, no ANSI, no field selectors, the default delimiter,
no error surfacing. -/
def defaultOption (α : Type) : SkimItemReaderOption α :=
  { use_ansi_color := false
    transform_fields := []
    matching_fields := []
    delimiter := DELIMITER_STR
    line_ending := 10
    show_error := false }

/-- line_ending models the setter at item_reader.rs lines 56-59. -/
def line_ending (o : SkimItemReaderOption α) (le : Nat) : SkimItemReaderOption α :=
  { o with line_ending := le }

/-- ansi models the setter at item_reader.rs lines 61-64. -/
def ansi (o : SkimItemReaderOption α) (enable : Bool) : SkimItemReaderOption α :=
  { o with use_ansi_color := enable }

/-- delimiter models the setter at item_reader.rs lines 66-71.  Regex
compilation (the external regex crate) is abstracted by the predicate
compiles; Regex::new(d).unwrap_or_else(fallback to DELIMITER_STR) keeps d's
pattern when it compiles and otherwise compiles the default pattern, whose
inner unwrap() panics (modelled by none) only if the default pattern itself
failed to compile. -/
def delimiter (compiles : String → Bool) (o : SkimItemReaderOption α) (d : String) :
    Option (SkimItemReaderOption α) :=
  if d.isEmpty then some o
  else if compiles d then some { o with delimiter := d }
  else if compiles DELIMITER_STR then some { o with delimiter := DELIMITER_STR }
  else none

/-- with_nth models the setter at item_reader.rs lines 73-78.  Modelled from
the spec: FieldRange::from_str lives in src/field.rs which is not under src/,
so the parse function p is taken as a parameter returning none on a malformed
token, exactly the Option shape filter_map consumes. -/
def with_nth (p : String → Option α) (o : SkimItemReaderOption α) (s : String) :
    SkimItemReaderOption α :=
  if s.isEmpty then o
  else { o with transform_fields := (s.splitOn ",").filterMap p }

/-- nth models the setter at item_reader.rs lines 85-90, the matching-fields
counterpart of with_nth. -/
def nth (p : String → Option α) (o : SkimItemReaderOption α) (s : String) :
    SkimItemReaderOption α :=
  if s.isEmpty then o
  else { o with matching_fields := (s.splitOn ",").filterMap p }

/-- read0 models the setter at item_reader.rs lines 97-104: enabling it sets
the null byte as line ending, disabling it restores newline. -/
def read0 (o : SkimItemReaderOption α) (enable : Bool) : SkimItemReaderOption α :=
  { o with line_ending := if enable then 0 else 10 }

/-- is_simple models item_reader.rs lines 115-117. -/
def is_simple (o : SkimItemReaderOption α) : Bool :=
  !o.use_ansi_color && o.matching_fields.isEmpty && o.transform_fields.isEmpty

/-- BuildOptions models ingest.rs lines 21-26. -/
structure BuildOptions (α : Type) where
  ansi_enabled : Bool
  trans_fields : List α
  matching_fields : List α
  delimiter : String
deriving DecidableEq

/-- SendRawOrBuild models ingest.rs lines 15-18. -/
inductive SendRawOrBuild (α : Type)
  | Raw : SendRawOrBuild α
  | Build : BuildOptions α → SendRawOrBuild α
deriving DecidableEq

/-- of_bufread_mode models the dispatch of SkimItemReader::of_bufread
(item_reader.rs lines 146-154): the raw path (raw_bufread, which runs
ingest_loop with SendRawOrBuild::Raw) is taken exactly when is_simple holds,
and otherwise the pipe collector runs ingest_loop with SendRawOrBuild::Build
over the option's fields (item_reader.rs lines 196-203). -/
def of_bufread_mode (o : SkimItemReaderOption α) : SendRawOrBuild α :=
  if is_simple o then .Raw
  else .Build { ansi_enabled := o.use_ansi_color
                trans_fields := o.transform_fields
                matching_fields := o.matching_fields
                delimiter := o.delimiter }

/-- SkimItemM models the Arc of dyn SkimItem built per line by send
(ingest.rs lines 74-97): either the raw Box of str holding the line, or a
DefaultSkimItem built from the line and the build options (its internals live
in src/helper/item.rs, outside src/, so only the inputs are recorded). -/
inductive SkimItemM (α : Type)
  | raw (line : List Nat)
  | built (line : List Nat) (opts : BuildOptions α)
deriving DecidableEq

/-- send models the per-line item construction of ingest.rs lines 74-97. -/
def send (opts : SendRawOrBuild α) (line : List Nat) : SkimItemM α :=
  match opts with
  | .Build b => .built line b
  | .Raw => .raw line

/-- itemText models the text() capability on the items send produces.
Modelled from the spec: the SkimItem impl for a raw Box of str (crate root,
outside src/) returns the stored line itself; for a built DefaultSkimItem
the text depends on the ANSI/field machinery of src/helper/item.rs (outside
src/), which this model leaves undetermined (none). -/
def itemText : SkimItemM α → Option (List Nat)
  | .raw l => some l
  | .built _ _ => none

/-- ChildProc models the std::process::Child spawned by get_command_output:
the content the child writes to its captured standard output and standard
error, and whether its exit status (after kill and wait) reports success. -/
structure ChildProc where
  stdout : List Nat
  stderr : List Nat
  exit_success : Bool
deriving DecidableEq

/-- get_command_output models item_reader.rs lines 275-290: the shell child
is spawned with stdout and stderr piped, and the function returns the pair
(Some(child), boxed BufReader over the child's captured standard output). -/
def get_command_output (c : ChildProc) : Option ChildProc × List Nat :=
  (some c, c.stdout)

/-- command_branch_items models the CollectorInput::Command branch of
SkimItemReader::read_and_collect_from_command (item_reader.rs lines 216-258)
and returns every item ever published on the returned item channel.  Line 217
binds only field .0 of get_command_output's pair, so the BufReader over the
child's standard output (field .1) is dropped on the spot and no ingestion
thread is spawned for it; the single spawned thread blocks on the interrupt
channel, kills and reaps the child, and, when show_error is set and the
reaped status is unsuccessful, publishes each line of the lossily decoded
standard error -- these stderr lines are the only sends on tx_item in this
branch. -/
def command_branch_items (show_error : Bool) (c : ChildProc) : List (List Nat) :=
  let command := (get_command_output c).1
  match command with
  | some child =>
    if show_error then
      let has_error := !child.exit_success
      if has_error then rustLines child.stderr else []
    else []
  | none => []

/-- ThreadAct enumerates the side effects of the threads spawned by
read_and_collect_from_command, in source order; debug! log lines carry no
state and are not modelled. -/
inductive ThreadAct
  | incCounter
  | setStarted
  | runIngest
  | sendInterrupt
  | recvInterrupt
  | killChild
  | reapChild
  | emitStderr
  | decCounter
deriving DecidableEq

/-- pipe_thread_trace is the body of the ingestion thread spawned by the
CollectorInput::Pipe branch (item_reader.rs lines 190-208): increment the
shared counter, set the started flag, run ingest_loop, send the interrupt
that wakes any watcher, decrement the counter. -/
def pipe_thread_trace : List ThreadAct :=
  [.incCounter, .setStarted, .runIngest, .sendInterrupt, .decCounter]

/-- command_thread_trace is the body of the watcher thread spawned by the
CollectorInput::Command branch (item_reader.rs lines 224-251): increment the
counter, set the started flag, block on the interrupt channel, kill the
child, wait for it (the reap), optionally surface stderr lines as items, and
decrement the counter. -/
def command_thread_trace (show_error : Bool) : List ThreadAct :=
  [.incCounter, .setStarted, .recvInterrupt, .killChild, .reapChild]
    ++ (if show_error then [.emitStderr] else []) ++ [.decCounter]

/-- counterAfter gives the value of the shared components_to_stop counter
once the first k actions of a thread trace have executed (all accesses in the
source are SeqCst, so the sequential reading is sound). -/
def counterAfter (tr : List ThreadAct) (k : Nat) : Int :=
  ((tr.take k).count .incCounter : Int) - ((tr.take k).count .decCounter : Int)

/-- startedAfter tells whether the started flag is observable as true once
the first k actions of a thread trace have executed; the spawning call's busy
wait (item_reader.rs lines 210-212 and 253-255) returns only at such a
point. -/
def startedAfter (tr : List ThreadAct) (k : Nat) : Bool :=
  (tr.take k).contains .setStarted

/-- ItemPoolM is a minimal model of the item store the header holds a weak
reference into.  Modelled from the spec: ItemPool (crate::item) is outside
src/; the header uses only its reserved() list of weak item references
(each some text when the item is still alive, none when it was released) and
its Default instance, the empty pool. -/
structure ItemPoolM where
  reserved_items : List (Option (List Nat))
deriving DecidableEq

/-- defaultItemPool is the Default ItemPool that Weak::upgrade's
unwrap_or_default falls back to: a fresh pool with no reserved items. -/
def defaultItemPool : ItemPoolM := { reserved_items := [] }

/-- HeaderM models the Header struct of header.rs lines 15-23; AnsiString
header lines are abstracted to their text, and the Weak of ItemPool is an
Option that is none exactly when the upgrade fails. -/
structure HeaderM where
  header : List (List Nat)
  tabstop : Nat
  reverse : Bool
  item_pool : Option ItemPoolM
deriving DecidableEq

/-- headerUpgrade models Header::upgrade (header.rs lines 50-52):
Weak::upgrade(&self.item_pool).unwrap_or_default(). -/
def headerUpgrade (h : HeaderM) : ItemPoolM :=
  h.item_pool.getD defaultItemPool

/-- lines_of_header models header.rs lines 85-89. -/
def lines_of_header (h : HeaderM) : Nat :=
  match h.item_pool with
  | some p => h.header.length + p.reserved_items.length
  | none => h.header.length

/-- drawHeader models Draw::draw for Header (header.rs lines 101-160) as the
data it renders: a screen narrower than 3 columns or shorter than
lines_of_header is an error; otherwise the fixed header lines are printed,
and of the reserved items those whose weak reference still upgrades
(filter_map(Weak::upgrade), line 136) are printed via their text. -/
def drawHeader (h : HeaderM) (width height : Nat) :
    Except String (List (List Nat) × List (List Nat)) :=
  if width < 3 then .error "screen width is too small"
  else if height < lines_of_header h then .error "screen height is too small"
  else .ok (h.header, (headerUpgrade h).reserved_items.filterMap id)

theorem rustLinesAux_cons_10 (acc r : List Nat) :
    rustLinesAux acc (10 :: r) = stripCR acc.reverse :: rustLinesAux [] r := by
  simp [rustLinesAux]

theorem rustLinesAux_cons_ne (acc : List Nat) (b : Nat) (r : List Nat) (hb : b ≠ 10) :
    rustLinesAux acc (b :: r) = rustLinesAux (b :: acc) r := by
  simp [rustLinesAux, hb]

theorem rustLinesAux_append : ∀ (a acc b : List Nat), a.getLast? = some 10 →
    rustLinesAux acc (a ++ b) = rustLinesAux acc a ++ rustLinesAux [] b := by
  intro a
  induction a with
  | nil => intro acc b h; simp at h
  | cons x a' ih =>
    intro acc b h
    cases a' with
    | nil =>
      have hx : x = 10 := by simpa using h
      subst hx
      rw [List.cons_append, List.nil_append, rustLinesAux_cons_10, rustLinesAux_cons_10]
      simp [rustLinesAux]
    | cons y a'' =>
      have h' : (y :: a'').getLast? = some 10 := by
        rw [List.getLast?_cons_cons] at h
        exact h
      by_cases hx : x = 10
      · subst hx
        rw [List.cons_append, rustLinesAux_cons_10, rustLinesAux_cons_10]
        rw [ih [] b h']
        simp
      · rw [List.cons_append, rustLinesAux_cons_ne acc x _ hx, rustLinesAux_cons_ne acc x _ hx]
        exact ih (x :: acc) b h'

theorem rustLines_append {a b : List Nat} (h : a.getLast? = some 10) :
    rustLines (a ++ b) = rustLines a ++ rustLines b :=
  rustLinesAux_append a [] b h

theorem rustLines_nil : rustLines [] = [] := rfl

theorem readUntil_bytes (t : Nat) : ∀ (cs : List (List Nat)), ∃ ext ds,
    readUntil t (cs.map Piece.bytes) = (ext, ds.map Piece.bytes) ∧
    ext ++ ds.flatten = cs.flatten ∧
    (ds = [] ∨ ext.getLast? = some t) ∧
    ds.length ≤ cs.length := by
  intro cs
  induction cs with
  | nil => exact ⟨[], [], by simp [readUntil], by simp, Or.inl rfl, by simp⟩
  | cons c cs' ih =>
    cases hsp : splitFirst t c with
    | some pq =>
      obtain ⟨pre, post⟩ := pq
      have hc := splitFirst_eq_some hsp
      by_cases hpost : post.isEmpty
      · have hpe : post = [] := List.isEmpty_iff.mp hpost
        refine ⟨pre ++ [t], cs', ?_, ?_, ?_, ?_⟩
        · simp [readUntil, hsp, hpost]
        · simp [hc, hpe]
        · right; simp
        · simp
      · refine ⟨pre ++ [t], post :: cs', ?_, ?_, ?_, ?_⟩
        · simp [readUntil, hsp, hpost]
        · simp [hc]
        · right; simp
        · simp
    | none =>
      obtain ⟨ext, ds, h1, h2, h3, h4⟩ := ih
      refine ⟨c ++ ext, ds, ?_, ?_, ?_, ?_⟩
      · simp [readUntil, hsp, h1]
      · simp only [List.append_assoc, h2, List.flatten_cons]
      · cases h3 with
        | inl hds => exact Or.inl hds
        | inr hlast =>
          right
          rw [List.getLast?_append, hlast]
          rfl
      · simpa using Nat.le_succ_of_le h4

theorem ingest_flatten_newline : ∀ (n : Nat) (cs : List (List Nat)), cs.length ≤ n →
    allAscii cs.flatten = true →
    ingestLoop 10 none (cs.map Piece.bytes) = (rustLines cs.flatten, false) := by
  intro n
  induction n with
  | zero =>
    intro cs hlen _
    have : cs = [] := List.length_eq_zero.mp (Nat.le_zero.mp hlen)
    subst this
    simp [ingestLoop, rustLines_nil]
  | succ n ihn =>
    intro cs hlen h
    match cs with
    | [] => simp [ingestLoop, rustLines_nil]
    | c :: cs' =>
      obtain ⟨ext, ds, h1, h2, h3, h4⟩ := readUntil_bytes 10 cs'
      have hflat : (c :: cs').flatten = (c ++ ext) ++ ds.flatten := by
        simp only [List.flatten_cons, ← h2, List.append_assoc]
      simp only [List.map_cons, ingestLoop, h1]
      by_cases hemp : (c ++ ext).isEmpty
      · have hce : c ++ ext = [] := List.isEmpty_iff.mp hemp
        have hcnil : c = [] := by
          cases List.append_eq_nil.mp hce with
          | intro hl hr => exact hl
        have hextnil : ext = [] := by
          cases List.append_eq_nil.mp hce with
          | intro hl hr => exact hr
        have hds : ds = [] := by
          cases h3 with
          | inl hd => exact hd
          | inr hl => rw [hextnil] at hl; simp at hl
        have : (c :: cs').flatten = [] := by
          rw [hflat, hce, hds]
          simp
        rw [if_pos hemp, this, rustLines_nil]
      · rw [if_neg hemp]
        have hascii : allAscii (c ++ ext) = true ∧ allAscii ds.flatten = true := by
          rw [hflat, allAscii, List.all_append, Bool.and_eq_true] at h
          exact ⟨h.1, h.2⟩
        rw [if_pos (allAscii_valid hascii.1)]
        have hih := ihn ds (by
            have hcs : cs'.length ≤ n := by simpa using hlen
            omega) hascii.2
        simp only [trySend, hih]
        cases h3 with
        | inl hds =>
          subst hds
          simp [hflat, rustLines_nil]
        | inr hlast =>
          have hbl : (c ++ ext).getLast? = some 10 := by
            rw [List.getLast?_append, hlast]
            rfl
          rw [hflat, rustLines_append hbl]

theorem ingest_cap_take_aux : ∀ (n : Nat) (ps : List Piece) (t k : Nat), ps.length ≤ n →
    (ingestLoop t (some k) ps).1 = ((ingestLoop t none ps).1).take k := by
  intro n
  induction n with
  | zero =>
    intro ps t k hlen
    have : ps = [] := List.length_eq_zero.mp (Nat.le_zero.mp hlen)
    subst this
    simp [ingestLoop]
  | succ n ihn =>
    intro ps t k hlen
    match ps with
    | [] => simp [ingestLoop]
    | .ioerr .interrupted :: rest =>
      simp only [ingestLoop]
      exact ihn rest t k (by simpa using hlen)
    | .ioerr .eof :: rest => simp [ingestLoop]
    | .ioerr .other :: rest => simp [ingestLoop]
    | .bytes bs :: rest =>
      have hrlen : ((readUntil t rest).2).length ≤ n := by
        have h1 := readUntil_snd_length t rest
        have h2 : rest.length ≤ n := by simpa using hlen
        omega
      simp only [ingestLoop]
      by_cases hemp : (bs ++ (readUntil t rest).1).isEmpty
      · simp [hemp]
      · rw [if_neg hemp, if_neg hemp]
        by_cases hvalid : isValidUtf8 (bs ++ (readUntil t rest).1)
        · rw [if_pos hvalid, if_pos hvalid]
          simp only [trySend]
          by_cases hk : (rustLines (bs ++ (readUntil t rest).1)).length ≤ k
          · rw [if_pos hk]
            simp only []
            rw [ihn ((readUntil t rest).2) t (k - (rustLines (bs ++ (readUntil t rest).1)).length) hrlen]
            rw [List.take_append_eq_append_take, List.take_of_length_le hk]
          · rw [if_neg hk]
            simp only []
            rw [List.take_append_eq_append_take]
            have : k - (rustLines (bs ++ (readUntil t rest).1)).length = 0 := by omega
            rw [this]
            simp
        · rw [if_neg hvalid, if_neg hvalid]
          simp

/-- lifecycleOk collects the lifecycle-counter facts claim C3 asserts of one
thread trace: the counter increment is the first action, the decrement is the
last action and each occurs exactly once, any point at which the spawning
call's busy wait can return (started flag observable) is past the increment,
and from any such point the counter reads zero exactly when the whole trace,
cleanup included, has executed. -/
def lifecycleOk (tr : List ThreadAct) : Prop :=
  tr.head? = some ThreadAct.incCounter ∧
  tr.getLast? = some ThreadAct.decCounter ∧
  tr.count ThreadAct.incCounter = 1 ∧
  tr.count ThreadAct.decCounter = 1 ∧
  (∀ k : Fin (tr.length + 1), startedAfter tr (k : Nat) = true →
    1 ≤ (tr.take (k : Nat)).count ThreadAct.incCounter) ∧
  (∀ k : Fin (tr.length + 1), startedAfter tr (k : Nat) = true →
    (counterAfter tr (k : Nat) = 0 ↔ (k : Nat) = tr.length))

/-- C1: the claim says every line the spawned command writes to standard
output is published as an item on the channel read_and_collect_from_command /
invoke returns.  In the code the Command branch drops the stdout reader
(field .1 of get_command_output's pair, item_reader.rs line 217) and spawns
no ingestion thread, so the published items never depend on the stdout
content; for a child that writes the line hi and exits successfully, nothing
at all is published, though the claim demands the item hi. -/
theorem c1_command_stdout_never_published :
    (∀ (se : Bool) (c : ChildProc) (s1 s2 : List Nat),
      command_branch_items se { c with stdout := s1 } =
        command_branch_items se { c with stdout := s2 }) ∧
    command_branch_items false { stdout := [104, 105, 10], stderr := [], exit_success := true } = [] ∧
    rustLines [104, 105, 10] = [[104, 105]] :=
  ⟨fun _ _ _ _ => rfl, rfl, by decide⟩

/-- C2 counterexample: the claim says a trailing segment not followed by the
terminator produces no item; with newline terminator and input ab (no
terminator at all, delivered in one read) the loop publishes the item ab
while the claim's rule (specSegments) demands no items. -/
theorem c2_counterexample :
    (ingestLoop 10 none [Piece.bytes [97, 98]]).1 ≠ specSegments 10 [97, 98] := by
  have h : ingestLoop 10 none [Piece.bytes [97, 98]] = ([[97, 98]], false) := by
    simp [ingestLoop, readUntil, trySend, rustLines, rustLinesAux, stripCR,
      isValidUtf8, utf8Step, splitFirst]
  rw [h]
  decide

/-- C2 amended: for any configured terminator byte and any valid-UTF-8 input
delivered in one read, the loop's items are exactly Rust str::lines of the
input -- one item per newline-delimited line, a trailing unterminated
nonempty segment included, the terminator byte itself never splitting items
(it only bounds read extension). -/
theorem c2_amended (t : Nat) (bs : List Nat) (h : isValidUtf8 bs = true) :
    ingestLoop t none [Piece.bytes bs] = (rustLines bs, false) := by
  simp only [ingestLoop, readUntil, List.append_nil]
  by_cases hemp : bs.isEmpty
  · have : bs = [] := List.isEmpty_iff.mp hemp
    subst this
    simp [rustLines_nil]
  · rw [if_neg hemp, if_pos h]
    simp [trySend, ingestLoop]

/-- C2 amended, witness at terminator 10 and input a newline b. -/
theorem c2_amended_witness :
    isValidUtf8 [97, 10, 98] = true ∧
    ingestLoop 10 none [Piece.bytes [97, 10, 98]] = (rustLines [97, 10, 98], false) :=
  ⟨by decide, c2_amended 10 [97, 10, 98] (by decide)⟩

/-- C3: for the threads spawned by read_and_collect_from_command (the pipe
ingestion thread and the command watcher thread, with or without error
surfacing), the counter increment precedes all other work and happens before
the spawning call's busy wait can return, the decrement is the final action,
each happens exactly once, once the spawn has returned the counter reads zero
exactly when the whole trace has executed, and in the command trace the child
reap strictly precedes the decrement. -/
theorem c3_lifecycle_counter : ∀ se : Bool,
    lifecycleOk pipe_thread_trace ∧ lifecycleOk (command_thread_trace se) ∧
    (command_thread_trace se).indexOf ThreadAct.reapChild <
      (command_thread_trace se).indexOf ThreadAct.decCounter := by
  intro se
  unfold lifecycleOk
  cases se <;> decide

/-- C3 witness: in the command watcher trace with error surfacing, once all
seven actions (through the decrement, after the reap) have executed, the
shared counter reads zero. -/
theorem c3_lifecycle_counter_witness :
    counterAfter (command_thread_trace true) 7 = 0 := by
  have h := ((c3_lifecycle_counter true).2.1).2.2.2.2.2 ⟨7, by decide⟩ (by decide)
  exact h.mpr (by decide)

/-- C4 counterexample: with the null terminator, delivering a null b newline
c null after a first chunk a produces the items a-null, b, c-null, while the
same bytes in one unsplit read produce a-null-b, c-null: the item sequence is
not split-insensitive. -/
theorem c4_counterexample :
    (ingestLoop 0 none [Piece.bytes [97], Piece.bytes [0, 98, 10, 99, 0]]).1 ≠
      (ingestLoop 0 none [Piece.bytes [97, 0, 98, 10, 99, 0]]).1 := by
  have h1 : ingestLoop 0 none [Piece.bytes [97], Piece.bytes [0, 98, 10, 99, 0]] =
      ([[97, 0], [98], [99, 0]], false) := by
    simp [ingestLoop, readUntil, trySend, rustLines, rustLinesAux, stripCR,
      isValidUtf8, utf8Step, splitFirst]
  have h2 : ingestLoop 0 none [Piece.bytes [97, 0, 98, 10, 99, 0]] =
      ([[97, 0, 98], [99, 0]], false) := by
    simp [ingestLoop, readUntil, trySend, rustLines, rustLinesAux, stripCR,
      isValidUtf8, utf8Step, splitFirst]
  rw [h1, h2]
  decide

/-- C4 amended: with the newline terminator (the default), the item sequence
is insensitive to how the input is split across read boundaries: any chunking
of an ASCII input produces the same result as the whole input in one unsplit
read, because every read is extended through the next newline before the
buffer is split. -/
theorem c4_amended (cs : List (List Nat)) (h : allAscii cs.flatten = true) :
    ingestLoop 10 none (cs.map Piece.bytes) =
      ingestLoop 10 none [Piece.bytes cs.flatten] := by
  rw [ingest_flatten_newline cs.length cs (le_refl _) h]
  have h2 : allAscii ([cs.flatten] : List (List Nat)).flatten = true := by simpa using h
  rw [show [Piece.bytes cs.flatten] = ([cs.flatten] : List (List Nat)).map Piece.bytes by simp]
  rw [ingest_flatten_newline 1 [cs.flatten] (by simp) h2]
  simp

/-- C4 amended, witness at the chunking a / newline b. -/
theorem c4_amended_witness :
    allAscii ([[97], [10, 98]] : List (List Nat)).flatten = true ∧
    ingestLoop 10 none (([[97], [10, 98]] : List (List Nat)).map Piece.bytes) =
      ingestLoop 10 none [Piece.bytes ([[97], [10, 98]] : List (List Nat)).flatten] :=
  ⟨by decide, c4_amended [[97], [10, 98]] (by decide)⟩

/-- C5: a fill_buf read that fails with the Interrupted kind is retried
transparently (the loop's result is as if the failed read never happened),
while a read failing with any other kind, UnexpectedEof included, terminates
the loop at once, without publishing anything further and without any error
surfacing to the caller. -/
theorem c5_read_error_kinds (t : Nat) (cap : Option Nat) (ps : List Piece) :
    ingestLoop t cap (Piece.ioerr ErrKind.interrupted :: ps) = ingestLoop t cap ps ∧
    (∀ k : ErrKind, k ≠ ErrKind.interrupted →
      ingestLoop t cap (Piece.ioerr k :: ps) = ([], false)) := by
  constructor
  · simp [ingestLoop]
  · intro k hk
    cases k with
    | interrupted => exact absurd rfl hk
    | eof => simp [ingestLoop]
    | other => simp [ingestLoop]

/-- C5 witness: an UnexpectedEof error at the head of the script ends the
loop with no items even though data follows. -/
theorem c5_read_error_kinds_witness :
    ingestLoop 10 none (Piece.ioerr ErrKind.eof :: [Piece.bytes [97, 10]]) = ([], false) :=
  (c5_read_error_kinds 10 none [Piece.bytes [97, 10]]).2 ErrKind.eof (by decide)

/-- C6: if the receiver is dropped after accepting k items, the ingestion
loop publishes exactly the first k items of the unrestricted run and stops:
no further line of the current buffer and nothing from later reads is sent,
and the loop ends without error. -/
theorem c6_send_failure_stops (t k : Nat) (ps : List Piece) :
    (ingestLoop t (some k) ps).1 = ((ingestLoop t none ps).1).take k :=
  ingest_cap_take_aux ps.length ps t k (le_refl _)

/-- C7: of_bufread takes the raw (simple) path exactly when ANSI color is
disabled and both field selectors are empty, and the raw-mode item of a line
has that line, verbatim, as its text. -/
theorem c7_simple_dispatch :
    (∀ (α : Type) (o : SkimItemReaderOption α),
      of_bufread_mode o = SendRawOrBuild.Raw ↔
        (o.use_ansi_color = false ∧ o.matching_fields = [] ∧ o.transform_fields = [])) ∧
    (∀ (α : Type) (l : List Nat),
      itemText (send (SendRawOrBuild.Raw : SendRawOrBuild α) l) = some l) := by
  constructor
  · intro α o
    by_cases hs : is_simple o = true
    · simp only [of_bufread_mode, hs, if_true]
      simp only [is_simple, Bool.and_eq_true, Bool.not_eq_true', List.isEmpty_iff] at hs
      simp [hs.1.1, hs.1.2, hs.2]
    · simp only [of_bufread_mode, hs, if_false]
      simp only [is_simple, Bool.and_eq_true, Bool.not_eq_true', List.isEmpty_iff] at hs
      constructor
      · intro hraw
        exact absurd hraw (by simp)
      · intro hcond
        exact absurd ⟨⟨hcond.1, hcond.2.1⟩, hcond.2.2⟩ hs
  · intro α l
    rfl

/-- C8: the nth and with_nth setters never panic; every comma-separated token
the external FieldRange parser rejects is dropped by filter_map, so a
nonempty fully malformed selector string yields the empty selector list
rather than an error. -/
theorem c8_field_selectors (α : Type) (p : String → Option α)
    (o : SkimItemReaderOption α) (s : String) :
    (s.isEmpty = false →
      (nth p o s).matching_fields = (s.splitOn ",").filterMap p ∧
      (with_nth p o s).transform_fields = (s.splitOn ",").filterMap p) ∧
    ((∀ tok ∈ s.splitOn ",", p tok = none) → s.isEmpty = false →
      (nth p o s).matching_fields = [] ∧ (with_nth p o s).transform_fields = []) := by
  constructor
  · intro hs
    rw [nth, if_neg (by simp [hs]), with_nth, if_neg (by simp [hs])]
    exact ⟨rfl, rfl⟩
  · intro hp hs
    rw [nth, if_neg (by simp [hs]), with_nth, if_neg (by simp [hs])]
    constructor
    · exact List.filterMap_eq_nil_iff.mpr hp
    · exact List.filterMap_eq_nil_iff.mpr hp

/-- C8 witness: a fully malformed two-token selector string yields empty
matching and transform selector lists. -/
theorem c8_field_selectors_witness :
    (nth (fun _ => (none : Option Nat)) (defaultOption Nat) "foo,bar").matching_fields = [] ∧
    (with_nth (fun _ => (none : Option Nat)) (defaultOption Nat) "foo,bar").transform_fields = [] :=
  (c8_field_selectors Nat (fun _ => none) (defaultOption Nat) "foo,bar").2
    (fun _ _ => rfl) rfl

/-- C9: when the header's weak reference to the item store cannot be
upgraded, draw falls back to the empty default pool and renders no reserved
items, erroring only for the size conditions; when the pool is alive, the
reserved items whose own weak references fail to upgrade are silently
filtered out, a dead entry contributing nothing wherever it sits. -/
theorem c9_header_weak_refs (h : HeaderM) (width height : Nat) :
    (h.item_pool = none → ¬ width < 3 → ¬ height < lines_of_header h →
      drawHeader h width height = .ok (h.header, [])) ∧
    (h.item_pool = none →
      drawHeader h width height = .ok (h.header, []) ∨
        width < 3 ∨ height < lines_of_header h) ∧
    (∀ p : ItemPoolM, h.item_pool = some p → ¬ width < 3 → ¬ height < lines_of_header h →
      drawHeader h width height = .ok (h.header, p.reserved_items.filterMap id)) ∧
    (∀ pre post : List (Option (List Nat)),
      (ItemPoolM.mk (pre ++ none :: post)).reserved_items.filterMap id =
        (ItemPoolM.mk (pre ++ post)).reserved_items.filterMap id) := by
  refine ⟨?_, ?_, ?_, ?_⟩
  · intro hp hw hh
    rw [drawHeader, if_neg hw, if_neg hh]
    simp [headerUpgrade, hp, defaultItemPool]
  · intro hp
    by_cases hw : width < 3
    · exact Or.inr (Or.inl hw)
    by_cases hh : height < lines_of_header h
    · exact Or.inr (Or.inr hh)
    · left
      rw [drawHeader, if_neg hw, if_neg hh]
      simp [headerUpgrade, hp, defaultItemPool]
  · intro p hp hw hh
    rw [drawHeader, if_neg hw, if_neg hh]
    simp [headerUpgrade, hp]
  · intro pre post
    simp [List.filterMap_append]

/-- C9 witness: a dead pool reference on a 10 by 5 screen renders the fixed
header line and no reserved items, with no error. -/
theorem c9_header_weak_refs_witness :
    drawHeader { header := [[104]], tabstop := 8, reverse := false, item_pool := none } 10 5 =
      .ok ([[104]], []) :=
  (c9_header_weak_refs { header := [[104]], tabstop := 8, reverse := false, item_pool := none }
      10 5).1 rfl (by decide) (by decide)

/-- C10: provided the default delimiter pattern itself compiles (it does:
a run of tabs, newlines and spaces), the delimiter setter never panics, an
empty string leaves the option unchanged, and a nonempty pattern that fails
to compile silently falls back to the default whitespace-run pattern. -/
theorem c10_delimiter_fallback (α : Type) (compiles : String → Bool)
    (o : SkimItemReaderOption α) (d : String) (hdef : compiles DELIMITER_STR = true) :
    (delimiter compiles o d).isSome = true ∧
    (d.isEmpty = true → delimiter compiles o d = some o) ∧
    (d.isEmpty = false → compiles d = false →
      delimiter compiles o d = some { o with delimiter := DELIMITER_STR }) := by
  refine ⟨?_, ?_, ?_⟩
  · rw [delimiter]
    by_cases hd : d.isEmpty
    · simp [hd]
    · simp only [hd, if_false, Bool.false_eq_true]
      by_cases hc : compiles d
      · simp [hc]
      · simp [hc, hdef]
  · intro hd
    rw [delimiter, if_pos hd]
  · intro hd hc
    rw [delimiter, if_neg (by simp [hd]), if_neg (by simp [hc]), if_pos hdef]

/-- C10 witness: with compilation succeeding exactly on the default pattern,
an invalid pattern never panics and falls back to the default. -/
theorem c10_delimiter_fallback_witness :
    (delimiter (fun s => s == DELIMITER_STR) (defaultOption Nat) "[bad").isSome = true ∧
    delimiter (fun s => s == DELIMITER_STR) (defaultOption Nat) "[bad" =
      some { defaultOption Nat with delimiter := DELIMITER_STR } := by
  have h := c10_delimiter_fallback Nat (fun s => s == DELIMITER_STR) (defaultOption Nat)
    "[bad" (by simp)
  exact ⟨h.1, h.2.2 (by decide) (by decide)⟩

end Skim
